import Mathlib

/-!
Verification of the wexiv TIFF/IFD reader and decoder
(`src/tiffvisitor_int.cpp`, `src/tiffcomposite_int.cpp`) against its
natural-language specification.  The C++ functions are shallowly embedded
as executable Lean definitions over byte lists; machine integers are
modelled as `Nat` with explicit reduction mod `2^32` where the C++
performs 32-bit unsigned arithmetic.
-/

namespace Wexiv

/-- 2^32, the wrap-around modulus of C++ `uint32_t` arithmetic. -/
def U32 : Nat := 4294967296

/-- Byte orders, from `types.hpp` (`littleEndian`/`bigEndian`/`invalidByteOrder`). -/
inductive ByteOrder
  | littleEndian
  | bigEndian
  | invalidByteOrder
deriving DecidableEq, Repr

/-- Read one byte of a buffer; out-of-range reads yield 0 (every modelled
call site is bounds-checked by the code before reading). -/
def byteAt (buf : List Nat) (i : Nat) : Nat := buf.getD i 0

/-- Modelled from the spec: `getUShort` (endian-aware 2-byte read) of the
primitive codec (`types.cpp`, not under src/).  `invalidByteOrder` reads
as big-endian, matching the reference codec's `if littleEndian ... else`
shape. -/
def getUShort (buf : List Nat) (i : Nat) (bo : ByteOrder) : Nat :=
  match bo with
  | .littleEndian => byteAt buf i + 256 * byteAt buf (i + 1)
  | _ => 256 * byteAt buf i + byteAt buf (i + 1)

/-- Modelled from the spec: `getULong` (endian-aware 4-byte read) of the
primitive codec (`types.cpp`, not under src/). -/
def getULong (buf : List Nat) (i : Nat) (bo : ByteOrder) : Nat :=
  match bo with
  | .littleEndian =>
      byteAt buf i + 256 * byteAt buf (i + 1) + 65536 * byteAt buf (i + 2) +
        16777216 * byteAt buf (i + 3)
  | _ =>
      16777216 * byteAt buf i + 65536 * byteAt buf (i + 1) + 256 * byteAt buf (i + 2) +
        byteAt buf (i + 3)

/-- Group ids.  The C++ `IfdId` enumeration lives in a header that is not
under src/; it is an integer-valued enum (`visitSubIfd` computes
`newGroup_ + i`), so groups are modelled as `Nat` with named constants
for the groups the claims mention. -/
abbrev IfdId : Type := Nat

def ifdIdNotSet : Nat := 0
def ifd0Id : Nat := 1
def ifd1Id : Nat := 2
def exifId : Nat := 5
def sony1Id : Nat := 90
def canonId : Nat := 50
def olympusId : Nat := 60

/-- Modelled from the spec: `groupName` (group id to name table, in
`tiffimage_int.cpp`, not under src/).  Only the groups referenced by the
claims are given their names; unknown ids map to "Unknown". -/
def groupName (g : Nat) : String :=
  if g = ifd0Id then "Image"
  else if g = ifd1Id then "Thumbnail"
  else if g = exifId then "Photo"
  else if g = sony1Id then "Sony1"
  else if g = canonId then "Canon"
  else if g = olympusId then "Olympus"
  else "Unknown"

/-- Log events emitted by the reader (`EXV_ERROR` / `EXV_WARNING` lines of
`tiffvisitor_int.cpp`).  Warnings are observability output only; the
model records them so that claims about "a warning is logged" can be
stated. -/
inductive LogEvent
  | entryOutOfBounds
  | unknownType (tiffType : Nat)
  | invalidSize (count : Nat)
  | offsetOutOfBounds (offset : Nat)
  | upperBoundOutOfBounds (offset size : Nat)
  | circularRef (group prevGroup : Nat)
  | dirNoEntryCount
  | dirTooLarge (n : Nat)
  | dirEntryOutside (i : Nat)
  | unhandledTag (tag : Nat)
  | dirUnexpectedNext
  | dirNextOutOfBounds
  | dirNextNoCount
  | subIfdOutOfBounds (i : Nat)
  | subIfdSkipExtra (i : Nat)
  | notASubIfd
  | mnHeaderFail (group : Nat)
  | dupBinaryArray (tag : Nat)
deriving DecidableEq, Repr

/-- Hard errors thrown by the reader (class `Error` error codes used in
`readTiffEntry`). -/
inductive TiffErr
  | kerArithmeticOverflow
  | kerCorruptedMetadata
deriving DecidableEq, Repr

/-- The fields `TiffReader::readTiffEntry` stores into a `TiffEntryBase`
on success: TIFF type, resolved per-component type size, component
count, raw 4-byte offset field, position of the value bytes in the
buffer (`pData`), the final (possibly truncated) size, and the bytes the
`Value` object reads (`v->read(pData, size, byteOrder)`), which for the
Sony placeholder case is a zero-filled buffer of the declared size. -/
structure EntryData where
  tiffType : Nat
  typeSize : Nat
  count : Nat
  offset : Nat
  dataPos : Nat
  size : Nat
  valueBytes : List Nat
deriving DecidableEq, Repr

/-- The type size used by `readTiffEntry`: `TypeInfo::typeSize(toTypeId(...))`
with the `0 == typeSize → typeSize = 1` fix-up of
`tiffvisitor_int.cpp:759-767`.  The function `tsz` models
`TypeInfo::typeSize ∘ toTypeId` (both in `types.cpp` /
`tiffimage_int.cpp`, not under src/) applied to the entry's TIFF type. -/
def effTypeSize (tsz : Nat → Nat) (tiffType : Nat) : Nat :=
  if tsz tiffType = 0 then 1 else tsz tiffType

/-- Shallow embedding of `TiffReader::readTiffEntry`
(`src/src/tiffvisitor_int.cpp:739-850`).  Parameters: `tsz` the external
type-size function, `buf` the input buffer (`pData_`, with
`buf.length = size_`), `bo`/`base` the active `TiffRwState`, `tag`/`group`
the component identity, `s` the entry's start offset (`object->start() -
pData_`).  Returns `Except`: `.error` models a thrown `Error`; `.ok
(none, logs)` models an early `return` that leaves the entry without a
value; `.ok (some e, logs)` models a completed read.  The `uintptr_t`
pointer-overflow guards of lines 802-812 are modelled for the wasm32
target the repository compiles to (32-bit pointers, a buffer that fits
in the address space). -/
def readTiffEntry (tsz : Nat → Nat) (buf : List Nat) (bo : ByteOrder) (base : Nat)
    (tag group s : Nat) : Except TiffErr (Option EntryData × List LogEvent) :=
  if s + 12 > buf.length then
    .ok (none, [.entryOutOfBounds])
  else
    let tiffType := getUShort buf (s + 2) bo
    let typeSize := effTypeSize tsz tiffType
    let logsA : List LogEvent := if tsz tiffType = 0 then [.unknownType tiffType] else []
    let count := getULong buf (s + 4) bo
    if count ≥ 268435456 then
      .ok (none, logsA ++ [.invalidSize count])
    else if count > (U32 - 1) / typeSize then
      .error .kerArithmeticOverflow
    else
      let size0 := typeSize * count
      let offset := getULong buf (s + 8) bo
      if size0 > 4 ∧ ((base + offset) % U32 ≥ buf.length ∨ (base + offset) % U32 = 0) then
        if tag = 8193 ∧ groupName group = "Sony1" then
          .ok (some ⟨tiffType, typeSize, count, offset, s + 8, 0, List.replicate size0 0⟩, logsA)
        else
          .ok (some ⟨tiffType, typeSize, count, offset, s + 8, 0, []⟩,
            logsA ++ [.offsetOutOfBounds offset])
      else if size0 > 4 then
        if base + offset ≥ U32 then
          .error .kerCorruptedMetadata
        else if size0 > buf.length - (base + offset) then
          .ok (some ⟨tiffType, typeSize, count, offset, base + offset, 0, []⟩,
            logsA ++ [.upperBoundOutOfBounds offset size0])
        else
          .ok (some ⟨tiffType, typeSize, count, offset, base + offset, size0,
            (buf.drop (base + offset)).take size0⟩, logsA)
      else
        .ok (some ⟨tiffType, typeSize, count, offset, s + 8, size0,
          (buf.drop (s + 8)).take size0⟩, logsA)

/-- Modelled from the spec: the standard per-component byte sizes of the
TIFF types (`TypeInfo::typeSize` in `types.cpp`, not under src/); the
spec's §4.1 "unknown/invalid TIFF type codes degrade to a size of 1
byte" is realized by `effTypeSize` mapping 0 to 1. -/
def tiffTypeSize (t : Nat) : Nat :=
  if t = 1 then 1
  else if t = 2 then 1
  else if t = 3 then 2
  else if t = 4 then 4
  else if t = 5 then 8
  else if t = 6 then 1
  else if t = 7 then 1
  else if t = 8 then 2
  else if t = 9 then 4
  else if t = 10 then 8
  else if t = 11 then 4
  else if t = 12 then 8
  else if t = 13 then 4
  else 0

/-- `Tag::all` from `tiffcomposite_int.hpp:66`. -/
def TagAll : Nat := 262144

/-- Search key for TIFF mapping structures (`TiffMappingInfo::Key`,
`tiffcomposite_int.hpp:287-293`): camera make, extended tag, group.
C++ character strings are modelled as `List Char`. -/
structure MappingKey where
  m : List Char
  e : Nat
  g : Nat

/-- One entry of the decode-function registry (`TiffMappingInfo`,
`tiffcomposite_int.hpp:285-314`).  The decoder function pointer is kept
abstract in type `α`; `none` models a null `DecoderFct`. -/
structure TiffMappingInfo (α : Type) where
  make : List Char
  extendedTag : Nat
  group : Nat
  decoderFct : Option α

/-- Shallow embedding of `TiffMappingInfo::operator==`
(`src/src/tiffcomposite_int.cpp:36-39`): the make clause is
`0 == strcmp("*", make_) || 0 == strncmp(make_, key.m_.c_str(),
strlen(make_))`, i.e. the literal make `"*"` or the entry's make being a
prefix of the camera make; the tag clause accepts `Tag::all` or an exact
extended-tag match; the group must be equal. -/
def tmiMatches {α : Type} (info : TiffMappingInfo α) (key : MappingKey) : Bool :=
  (info.make = ['*'] || info.make.isPrefixOf key.m) &&
    (info.extendedTag = TagAll || key.e = info.extendedTag) &&
    (key.g = info.group)

/-- Modelled from the spec: `TiffMapping::findDecoder`
(`tiffimage_int.cpp`, not under src/): a linear `std::find` over the
registry using `TiffMappingInfo::operator==`; the first matching entry
wins and supplies its decoder function, a null function (or no match)
meaning "skip". -/
def findDecoderFct {α : Type} (registry : List (TiffMappingInfo α)) (make : List Char)
    (tag group : Nat) : Option α :=
  (registry.find? (fun info => tmiMatches info ⟨make, tag, group⟩)).bind (·.decoderFct)

/-- Shallow embedding of `TiffDecoder::decodeTiffEntry`
(`src/src/tiffvisitor_int.cpp:433-445`): an entry whose value is not set
is not decoded at all; otherwise the decoder function found in the
registry (if any) produces the entry's output records via `emit`. -/
def decodeTiffEntry {α : Type} (registry : List (TiffMappingInfo α)) (make : List Char)
    (tag group : Nat) (pValue : Option EntryData) (emit : α → List (String × String)) :
    List (String × String) :=
  match pValue with
  | none => []
  | some _ =>
    match findDecoderFct registry make tag group with
    | none => []
    | some f => emit f

/-- Result of one `TiffReader::visitDirectory` call: the updated visited
set (`dirList_`), the children added (tag and entry start offset), the
start offset given to a next-IFD component (if one was created), and the
logs.  `visitDirectory` never throws, so there is no error case. -/
structure DirVisit where
  dirList : List (Nat × Nat)
  children : List (Nat × Nat)
  next : Option Nat
  logs : List LogEvent
deriving DecidableEq, Repr

/-- The entry loop of `TiffReader::visitDirectory`
(`src/src/tiffvisitor_int.cpp:590-611`): for each of the remaining
entries at offset `p`, stop with an error log if the 12-byte entry does
not fit the buffer (the C++ `return` aborts the whole directory, so the
completion flag is reported); otherwise ask the creator for a component
(`create tag group`, the structural-table lookup) and either add the
child or log the unhandled tag.  Recursion is on the remaining entry
count. -/
def readDirEntries (create : Nat → Nat → Bool) (buf : List Nat) (bo : ByteOrder)
    (group : Nat) : Nat → Nat → Nat → List (Nat × Nat) × List LogEvent × Bool
  | _, _, 0 => ([], [], true)
  | p, i, k + 1 =>
    if p + 12 > buf.length then ([], [.dirEntryOutside i], false)
    else
      let tag := getUShort buf p bo
      let rest := readDirEntries create buf bo group (p + 12) (i + 1) k
      if create tag group then ((tag, p) :: rest.1, rest.2.1, rest.2.2)
      else (rest.1, .unhandledTag tag :: rest.2.1, rest.2.2)

/-- Shallow embedding of `TiffReader::visitDirectory` together with
`TiffReader::circularReference` (`src/src/tiffvisitor_int.cpp:541-552`
and `568-645`).  `create` models `TiffCreator::create(tag, group)` and
`createNext` models `TiffCreator::create(Tag::next, group)` (the
structural table lives in `tiffimage_int.cpp`, not under src/, so both
are parameters).  `dirList` is the visited map from directory start
offset to group; the circular-reference check matches on the start
offset alone.  The next-pointer bound check
`baseOffset() + next > size_` is 32-bit unsigned arithmetic. -/
def visitDirectory (create : Nat → Nat → Bool) (createNext : Nat → Bool) (buf : List Nat)
    (bo : ByteOrder) (base : Nat) (group start : Nat) (hasNext : Bool)
    (dirList : List (Nat × Nat)) : DirVisit :=
  match dirList.find? (fun q => q.1 = start) with
  | some prev => ⟨dirList, [], none, [.circularRef group prev.2]⟩
  | none =>
    let dl := dirList ++ [(start, group)]
    if start + 2 > buf.length then ⟨dl, [], none, [.dirNoEntryCount]⟩
    else
      let n := getUShort buf start bo
      if n > 256 then ⟨dl, [], none, [.dirTooLarge n]⟩
      else
        let res := readDirEntries create buf bo group (start + 2) 0 n
        if !res.2.2 then ⟨dl, res.1, none, res.2.1⟩
        else if hasNext then
          let p := start + 2 + 12 * n
          if p + 4 > buf.length then ⟨dl, res.1, none, res.2.1 ++ [.dirNextNoCount]⟩
          else
            let nxt := getULong buf p bo
            if nxt ≠ 0 then
              if createNext group then
                if (base + nxt) % U32 > buf.length then
                  ⟨dl, res.1, none, res.2.1 ++ [.dirNextOutOfBounds]⟩
                else ⟨dl, res.1, some ((base + nxt) % U32), res.2.1⟩
              else ⟨dl, res.1, none, res.2.1 ++ [.dirUnexpectedNext]⟩
            else ⟨dl, res.1, none, res.2.1⟩
        else ⟨dl, res.1, none, res.2.1⟩

/-- The start offsets of the directory visits that are *not* refused by
the circular-reference guard, along a sequence of visit requests
`(group, start, hasNext)` threading the reader's visited set. -/
def prodStarts (create : Nat → Nat → Bool) (createNext : Nat → Bool) (buf : List Nat)
    (bo : ByteOrder) (base : Nat) :
    List (Nat × Nat × Bool) → List (Nat × Nat) → List Nat
  | [], _ => []
  | (g, st, hn) :: rest, dl =>
    let r := visitDirectory create createNext buf bo base g st hn dl
    if (dl.find? (fun q => q.1 = st)).isSome then
      prodStarts create createNext buf bo base rest r.dirList
    else st :: prodStarts create createNext buf bo base rest r.dirList

/-- The loop of `TiffReader::visitSubIfd`
(`src/src/tiffvisitor_int.cpp:654-678`): for each of the remaining
4-byte slots of the entry's value, read the offset, first validate
`baseOffset() + offset > size_` (32-bit unsigned arithmetic; an
out-of-bounds offset aborts the loop with an error), then stop with a
warning once the index reaches the cap `maxi`, and otherwise create a
child directory of group `newGroup_ + i` starting at the validated
offset.  Recursion is on the remaining slot count. -/
def subIfdLoop (buf : List Nat) (bo : ByteOrder) (base newGroup maxi dataPos : Nat) :
    Nat → Nat → List (Nat × Nat) × List LogEvent
  | _, 0 => ([], [])
  | i, k + 1 =>
    let offset := getULong buf (dataPos + 4 * i) bo
    if (base + offset) % U32 > buf.length then ([], [.subIfdOutOfBounds i])
    else if i ≥ maxi then ([], [.subIfdSkipExtra i])
    else
      let rest := subIfdLoop buf bo base newGroup maxi dataPos (i + 1) k
      ((newGroup + i, (base + offset) % U32) :: rest.1, rest.2)

/-- Shallow embedding of `TiffReader::visitSubIfd`
(`src/src/tiffvisitor_int.cpp:646-685`), applied to the entry state `e`
that `readTiffEntry` stored in the component.  The entry is treated as a
sub-IFD only for TIFF types LONG (4), SLONG (9) and IFD (13) with a
count of at least 1; the cap is 9, or 1 when the entry's own group is
IFD1.  Returns the created child directories as (group, start offset)
pairs plus the logs. -/
def visitSubIfd (buf : List Nat) (bo : ByteOrder) (base group newGroup : Nat)
    (e : EntryData) : List (Nat × Nat) × List LogEvent :=
  if (e.tiffType = 4 ∨ e.tiffType = 9 ∨ e.tiffType = 13) ∧ e.count ≥ 1 then
    subIfdLoop buf bo base newGroup (if group = ifd1Id then 1 else 9) e.dataPos 0 e.count
  else ([], [.notASubIfd])

/-- The `TiffVisitor` go flags used by the reader: `geTraverse` and
`geKnownMakernote` (`tiffvisitor_int.hpp`; `go_.fill(true)` on
construction). -/
structure GoFlags where
  traverse : Bool
  knownMakernote : Bool
deriving DecidableEq, Repr

/-- The Makernote wrapper component (`TiffIfdMakernote`): whether its
concrete header validates against the remaining buffer
(`pHeader_->read(...)`, vendor implementations in `makernote_int.cpp`,
not under src/, so the outcome is a field), the inner IFD's group and
the tags of the inner IFD's entries. -/
structure IfdMakernote where
  headerValid : Bool
  mnGroup : Nat
  ifdEntries : List Nat
deriving DecidableEq, Repr

/-- The Makernote slot component (`TiffMnEntry`): its tag and the
concrete Makernote `TiffMnCreator::create` produced in `visitMnEntry`
(`none` when the make was not recognized). -/
structure MnEntry where
  tag : Nat
  mn : Option IfdMakernote
deriving DecidableEq, Repr

/-- Trace of reader visits inside a Makernote slot, used to state which
components a walk reaches. -/
inductive VisitNode
  | mnEntry (tag : Nat)
  | ifdMakernote (group : Nat)
  | innerIfd (group : Nat)
  | innerEntry (tag : Nat)
deriving DecidableEq, Repr

/-- The reader's walk over a Makernote's inner IFD
(`TiffDirectory::doAccept` via `TiffComponent::accept`, guarded by
`geTraverse`): visiting the directory and then each entry. -/
def acceptInnerIfd (flags : GoFlags) (group : Nat) (entries : List Nat) :
    GoFlags × List VisitNode :=
  if flags.traverse then
    (flags, .innerIfd group :: entries.map .innerEntry)
  else (flags, [])

/-- Shallow embedding of `TiffIfdMakernote::doAccept`
(`src/src/tiffcomposite_int.cpp:290-297`) with the reader as visitor:
`visitIfdMakernote` (`src/src/tiffvisitor_int.cpp:707-732`) clears
`geKnownMakernote` and returns when the header fails to validate
(logging an error), and only if `geKnownMakernote` still holds is the
inner IFD traversed (`ifd_.accept(visitor)`). -/
def acceptIfdMakernote (flags : GoFlags) (m : IfdMakernote) :
    GoFlags × List VisitNode × List LogEvent :=
  if !flags.traverse then (flags, [], [])
  else
    if m.headerValid then
      let inner := acceptInnerIfd flags m.mnGroup m.ifdEntries
      (inner.1, .ifdMakernote m.mnGroup :: inner.2, [])
    else
      let flags1 : GoFlags := { flags with knownMakernote := false }
      (flags1, [.ifdMakernote m.mnGroup], [.mnHeaderFail m.mnGroup])

/-- Shallow embedding of `TiffMnEntry::doAccept`
(`src/src/tiffcomposite_int.cpp:279-288`) with the reader as visitor:
visit the slot entry, let the concrete Makernote (if any) accept the
visitor, and afterwards discard the concrete Makernote sub-tree
(`delete mn_; mn_ = 0`) when `geKnownMakernote` has been cleared, so the
slot reverts to an opaque binary entry. -/
def acceptMnEntry (flags : GoFlags) (e : MnEntry) :
    GoFlags × MnEntry × List VisitNode × List LogEvent :=
  if !flags.traverse then (flags, e, [], [])
  else
    match e.mn with
    | none =>
      if !flags.knownMakernote then (flags, { e with mn := none }, [.mnEntry e.tag], [])
      else (flags, e, [.mnEntry e.tag], [])
    | some m =>
      let r := acceptIfdMakernote flags m
      if !r.1.knownMakernote then
        (r.1, { e with mn := none }, .mnEntry e.tag :: r.2.1, r.2.2)
      else (r.1, e, .mnEntry e.tag :: r.2.1, r.2.2)

/-- One tag of a binary array (`ArrayDef`,
`tiffcomposite_int.hpp:1024-1035`): byte index from the start of the
array, TIFF type and component count. -/
structure ArrayDef where
  idx : Nat
  tiffType : Nat
  count : Nat
deriving DecidableEq, Repr

/-- `ArrayDef::size` (`src/src/tiffcomposite_int.cpp:315-318`):
`count_ * TypeInfo::typeSize(toTypeId(tiffType_, tag, group))`; the
external type-size composition is the parameter `tsz`. -/
def arrayDefSize (tsz : Nat → Nat) (d : ArrayDef) : Nat :=
  d.count * tsz d.tiffType

/-- Binary-array configuration (`ArrayCfg`,
`tiffcomposite_int.hpp:1038-1055`).  The crypt function, when present,
maps the raw bytes to a replacement buffer (`DataBuf`); an empty result
leaves the data unchanged (`if (buf.size_ > 0) setData(buf)`). -/
structure ArrayCfg where
  group : Nat
  byteOrder : ByteOrder
  elTiffType : Nat
  cryptFct : Option (Nat → List Nat → List Nat)
  hasSize : Bool
  hasFillers : Bool
  concat : Bool
  elDefaultDef : ArrayDef

/-- `ArrayCfg::tagStep` (`tiffcomposite_int.hpp:1043-1045`): the size of
the default element definition. -/
def tagStep (tsz : Nat → Nat) (cfg : ArrayCfg) : Nat :=
  arrayDefSize tsz cfg.elDefaultDef

/-- The element-building loop of the post-process phase of
`TiffReader::visitBinaryArray` (`src/src/tiffvisitor_int.cpp:889-925`)
combined with `TiffBinaryArray::addElement`
(`src/src/tiffcomposite_int.cpp:617-630`).  At byte position `idx`: take
the declared `ArrayDef` whose index equals `idx`; otherwise under the
`concat_` policy synthesize a filler spanning the gap up to the first
declared definition with a larger index (or to the end of the blob),
with the default element type when the gap is a whole number of tag
steps and type UNDEFINED (7) otherwise; without `concat_` fall back to
the default definition.  `addElement` appends an element `(tag, start,
size)` with `tag = idx / tagStep` and `size = min(def.size, total -
idx)` and advances by that size.  Recursion is on explicit fuel (the C++
loop does not terminate if an element size is 0; the model stops
there). -/
def binaryArrayLoop (tsz : Nat → Nat) (cfg : ArrayCfg) (deflist : Option (List ArrayDef))
    (total : Nat) : Nat → Nat → List (Nat × Nat × Nat)
  | _, 0 => []
  | idx, fuel + 1 =>
    if idx < total then
      let step := tagStep tsz cfg
      let d :=
        match deflist with
        | none => cfg.elDefaultDef
        | some defs =>
          match defs.find? (fun d => d.idx = idx) with
          | some d => d
          | none =>
            if cfg.concat then
              let gapSize :=
                match defs.find? (fun d => decide (d.idx > idx)) with
                | some x => x.idx - idx
                | none => total - idx
              if (gapSize / step) * step = gapSize then
                ⟨idx, cfg.elDefaultDef.tiffType, gapSize / step⟩
              else ⟨idx, 7, gapSize⟩
            else cfg.elDefaultDef
      let sz := min (arrayDefSize tsz d) (total - idx)
      (idx / step, idx, sz) ::
        (if sz = 0 then [] else binaryArrayLoop tsz cfg deflist total (idx + sz) fuel)
    else []

/-- The post-process read of a binary array: apply the crypt function (if
any) to the raw bytes first, then build the elements from byte 0.  The
returned elements are `(tag, start byte, size in bytes)` triples, each
owning the sub-slice `[start, start+size)` of the (possibly decrypted)
blob. -/
def binaryArrayElements (tsz : Nat → Nat) (cfg : ArrayCfg) (deflist : Option (List ArrayDef))
    (tag : Nat) (data : List Nat) : List (Nat × Nat × Nat) :=
  let data1 :=
    match cfg.cryptFct with
    | none => data
    | some f => let b := f tag data; if b.length > 0 then b else data
  binaryArrayLoop tsz cfg deflist data1.length 0 (data1.length + 1)

/-- Shallow embedding of `TiffReader::nextIdx`
(`src/src/tiffvisitor_int.cpp:554-556`): `return ++idxSeq_[group]`, the
per-group sequence counter pre-incremented (a fresh map entry starts
at 0); returns the assigned index and the updated counter map. -/
def nextIdx (seq : Nat → Nat) (g : Nat) : Nat × (Nat → Nat) :=
  (seq g + 1, fun x => if x = g then seq g + 1 else seq x)

/-- The idx assignment performed while entries are read in physical
order: each `readTiffEntry` ends with
`object->setIdx(nextIdx(object->group()))`
(`src/src/tiffvisitor_int.cpp:845-848`).  Entries are (tag, group)
pairs; the result pairs each entry with its assigned idx. -/
def assignIdx (seq : Nat → Nat) : List (Nat × Nat) → List ((Nat × Nat) × Nat)
  | [] => []
  | (t, g) :: rest => ((t, g), (nextIdx seq g).1) :: assignIdx (nextIdx seq g).2 rest

/-- Modelled from the spec: the Exif key built by
`TiffDecoder::decodeStdTiffEntry` (`ExifKey(tag, groupName(group))` with
`setIdx(idx)`; `ExifKey` lives in `tags.cpp`, not under src/): per §4.4
the key is the group-qualified name together with the numeric
disambiguator `idx`. -/
def stdKey (tag group idx : Nat) : String × Nat × Nat :=
  (groupName group, tag, idx)

/-- `emscripten::val::set` on the JS output object: setting a key
overwrites any earlier record with the same key. -/
def mapSet (m : List ((String × Nat × Nat) × String)) (k : String × Nat × Nat)
    (v : String) : List ((String × Nat × Nat) × String) :=
  (m.filter (fun p => p.1 ≠ k)) ++ [(k, v)]

/-- `TiffDecoder::decodeStdTiffEntry`
(`src/src/tiffvisitor_int.cpp:447-453`) applied to every idx-assigned
entry of a directory: each entry's value string (`val`) is written to
the output map under its idx-disambiguated key. -/
def decodeStdAll (val : (Nat × Nat) × Nat → String)
    (entries : List ((Nat × Nat) × Nat)) : List ((String × Nat × Nat) × String) :=
  entries.foldl (fun m e => mapSet m (stdKey e.1.1 e.1.2 e.2) (val e)) []

/-! ### Theorems -/

/-- Indexing into a list within bounds yields a member. -/
theorem getD_mem_of_lt {α : Type} (l : List α) (n : Nat) (d : α) (h : n < l.length) :
    l.getD n d ∈ l := by
  induction l generalizing n with
  | nil => simp at h
  | cons a rest ih =>
    cases n with
    | zero => simp [List.getD_cons_zero]
    | succ n =>
      rw [List.getD_cons_succ]
      exact List.mem_cons_of_mem _ (ih n (by simpa using Nat.lt_of_succ_lt_succ h))

/-- Idx assignment preserves the number of entries. -/
theorem assignIdx_length (seq : Nat → Nat) (l : List (Nat × Nat)) :
    (assignIdx seq l).length = l.length := by
  induction l generalizing seq with
  | nil => rfl
  | cons e rest ih =>
    obtain ⟨t, g⟩ := e
    simp [assignIdx, ih]

/-- Idx assignment preserves each entry. -/
theorem assignIdx_fst (seq : Nat → Nat) (l : List (Nat × Nat)) (k : Nat)
    (hk : k < l.length) :
    ((assignIdx seq l).getD k ((0, 0), 0)).1 = l.getD k (0, 0) := by
  induction l generalizing seq k with
  | nil => simp at hk
  | cons e rest ih =>
    obtain ⟨t, g⟩ := e
    cases k with
    | zero => simp [assignIdx]
    | succ k =>
      simp only [assignIdx, List.getD_cons_succ]
      exact ih _ k (by simpa using Nat.lt_of_succ_lt_succ hk)

/-- Every assigned idx exceeds the current counter of its group. -/
theorem assignIdx_lower (seq : Nat → Nat) (l : List (Nat × Nat)) (k : Nat)
    (hk : k < l.length) :
    seq (l.getD k (0, 0)).2 < ((assignIdx seq l).getD k ((0, 0), 0)).2 := by
  induction l generalizing seq k with
  | nil => simp at hk
  | cons e rest ih =>
    obtain ⟨t, g⟩ := e
    cases k with
    | zero => simp [assignIdx, nextIdx]
    | succ k =>
      simp only [assignIdx, List.getD_cons_succ]
      have hk' : k < rest.length := by simpa using Nat.lt_of_succ_lt_succ hk
      have h1 := ih (nextIdx seq g).2 k hk'
      have h2 : seq (rest.getD k (0, 0)).2 ≤ (nextIdx seq g).2 (rest.getD k (0, 0)).2 := by
        simp only [nextIdx]
        by_cases hx : (rest.getD k (0, 0)).2 = g
        · rw [if_pos hx, hx]
          exact Nat.le_succ _
        · rw [if_neg hx]
      exact lt_of_le_of_lt h2 h1

/-- Two entries of the same group receive strictly increasing idx values
in physical order. -/
theorem assignIdx_mono (l : List (Nat × Nat)) :
    ∀ (seq : Nat → Nat) (i j : Nat), i < j → j < l.length →
      (l.getD i (0, 0)).2 = (l.getD j (0, 0)).2 →
      ((assignIdx seq l).getD i ((0, 0), 0)).2 <
        ((assignIdx seq l).getD j ((0, 0), 0)).2 := by
  induction l with
  | nil => intro seq i j hij hj _; simp at hj
  | cons e rest ih =>
    intro seq i j hij hj hg
    obtain ⟨t, g⟩ := e
    cases j with
    | zero => omega
    | succ j =>
      have hj' : j < rest.length := by simpa using Nat.lt_of_succ_lt_succ hj
      cases i with
      | zero =>
        simp only [List.getD_cons_zero, List.getD_cons_succ] at hg
        simp only [assignIdx, List.getD_cons_zero, List.getD_cons_succ]
        have hlow := assignIdx_lower (nextIdx seq g).2 rest j hj'
        rw [← hg] at hlow
        simp only [nextIdx, if_pos rfl] at hlow ⊢
        exact hlow
      | succ i =>
        simp only [List.getD_cons_succ] at hg
        simp only [assignIdx, List.getD_cons_succ]
        exact ih (nextIdx seq g).2 i j (Nat.lt_of_succ_lt_succ hij) hj' hg

/-- A key just set is present in the map. -/
theorem mapSet_mem_self (m : List ((String × Nat × Nat) × String)) (k : String × Nat × Nat)
    (v : String) : k ∈ (mapSet m k v).map Prod.fst := by
  simp [mapSet]

/-- Setting one key never removes another key. -/
theorem mapSet_mem_mono (m : List ((String × Nat × Nat) × String))
    (k k2 : String × Nat × Nat) (v : String) (h : k ∈ m.map Prod.fst) :
    k ∈ (mapSet m k2 v).map Prod.fst := by
  by_cases hk : k = k2
  · subst hk
    simp [mapSet]
  · simp only [mapSet, List.map_append, List.mem_append]
    left
    obtain ⟨p, hp, hpk⟩ := List.mem_map.mp h
    exact List.mem_map.mpr ⟨p, List.mem_filter.mpr ⟨hp, by simp [hpk, hk]⟩, hpk⟩

/-- Keys present in the map stay present while further entries are
decoded. -/
theorem foldl_mapSet_keeps (val : (Nat × Nat) × Nat → String) :
    ∀ (entries : List ((Nat × Nat) × Nat)) (m : List ((String × Nat × Nat) × String))
      (k : String × Nat × Nat), k ∈ m.map Prod.fst →
      k ∈ (entries.foldl (fun m e => mapSet m (stdKey e.1.1 e.1.2 e.2) (val e)) m).map
        Prod.fst := by
  intro entries
  induction entries with
  | nil => intro m k h; exact h
  | cons a rest ih =>
    intro m k h
    exact ih _ k (mapSet_mem_mono _ _ _ _ h)

/-- Every decoded entry's key is present in the final map. -/
theorem foldl_mapSet_mem (val : (Nat × Nat) × Nat → String) :
    ∀ (entries : List ((Nat × Nat) × Nat)) (m : List ((String × Nat × Nat) × String))
      (e : (Nat × Nat) × Nat), e ∈ entries →
      stdKey e.1.1 e.1.2 e.2 ∈
        (entries.foldl (fun m e => mapSet m (stdKey e.1.1 e.1.2 e.2) (val e)) m).map
          Prod.fst := by
  intro entries
  induction entries with
  | nil => intro m e h; cases h
  | cons a rest ih =>
    intro m e h
    rcases List.mem_cons.mp h with rfl | h'
    · simp only [List.foldl_cons]
      exact foldl_mapSet_keeps val rest _ _ (mapSet_mem_self _ _ _)
    · exact ih _ e h'

/-- C9: when a directory holds the same (tag, group) at two physical
positions i < j, both entries are assigned a creation index by the
reader's per-group sequence counter, the indices are strictly increasing
in physical order, and both entries appear in the output map under
distinct keys disambiguated by that index. -/
theorem duplicate_tag_idx_ordering (seq : Nat → Nat) (l : List (Nat × Nat))
    (val : (Nat × Nat) × Nat → String) (t g i j : Nat)
    (hij : i < j) (hj : j < l.length)
    (hi2 : l.getD i (0, 0) = (t, g)) (hj2 : l.getD j (0, 0) = (t, g)) :
    ((assignIdx seq l).getD i ((0, 0), 0)).2 < ((assignIdx seq l).getD j ((0, 0), 0)).2 ∧
    stdKey t g ((assignIdx seq l).getD i ((0, 0), 0)).2 ≠
      stdKey t g ((assignIdx seq l).getD j ((0, 0), 0)).2 ∧
    stdKey t g ((assignIdx seq l).getD i ((0, 0), 0)).2 ∈
      (decodeStdAll val (assignIdx seq l)).map Prod.fst ∧
    stdKey t g ((assignIdx seq l).getD j ((0, 0), 0)).2 ∈
      (decodeStdAll val (assignIdx seq l)).map Prod.fst := by
  have hi : i < l.length := lt_trans hij hj
  have hmono := assignIdx_mono l seq i j hij hj (by rw [hi2, hj2])
  have hilen : i < (assignIdx seq l).length := by rw [assignIdx_length]; exact hi
  have hjlen : j < (assignIdx seq l).length := by rw [assignIdx_length]; exact hj
  have hifst := assignIdx_fst seq l i hi
  have hjfst := assignIdx_fst seq l j hj
  refine ⟨hmono, ?_, ?_, ?_⟩
  · intro hkey
    simp only [stdKey, Prod.mk.injEq] at hkey
    omega
  · have hmem := getD_mem_of_lt (assignIdx seq l) i ((0, 0), 0) hilen
    have := foldl_mapSet_mem val (assignIdx seq l) [] _ hmem
    rw [hifst, hi2] at this
    exact this
  · have hmem := getD_mem_of_lt (assignIdx seq l) j ((0, 0), 0) hjlen
    have := foldl_mapSet_mem val (assignIdx seq l) [] _ hmem
    rw [hjfst, hj2] at this
    exact this

/-- C9 witness: a directory with tag 0x010F of group 1 appearing twice:
the first occurrence gets idx 1, the second idx 2, and both
idx-disambiguated keys are present in the output map. -/
theorem duplicate_tag_idx_ordering_witness :
    ((assignIdx (fun _ => 0) [(271, 1), (271, 1)]).getD 0 ((0, 0), 0)).2 <
      ((assignIdx (fun _ => 0) [(271, 1), (271, 1)]).getD 1 ((0, 0), 0)).2 ∧
    stdKey 271 1 ((assignIdx (fun _ => 0) [(271, 1), (271, 1)]).getD 0 ((0, 0), 0)).2 ≠
      stdKey 271 1 ((assignIdx (fun _ => 0) [(271, 1), (271, 1)]).getD 1 ((0, 0), 0)).2 ∧
    stdKey 271 1 ((assignIdx (fun _ => 0) [(271, 1), (271, 1)]).getD 0 ((0, 0), 0)).2 ∈
      (decodeStdAll (fun _ => "ACME") (assignIdx (fun _ => 0) [(271, 1), (271, 1)])).map
        Prod.fst ∧
    stdKey 271 1 ((assignIdx (fun _ => 0) [(271, 1), (271, 1)]).getD 1 ((0, 0), 0)).2 ∈
      (decodeStdAll (fun _ => "ACME") (assignIdx (fun _ => 0) [(271, 1), (271, 1)])).map
        Prod.fst :=
  duplicate_tag_idx_ordering (fun _ => 0) [(271, 1), (271, 1)] (fun _ => "ACME")
    271 1 0 1 (by decide) (by decide) (by decide) (by decide)

/-- The sub-IFD loop creates at most `maxi - i` children from index `i`. -/
theorem subIfdLoop_length_le (buf : List Nat) (bo : ByteOrder)
    (base newGroup maxi dataPos : Nat) :
    ∀ k i, (subIfdLoop buf bo base newGroup maxi dataPos i k).1.length ≤ maxi - i := by
  intro k
  induction k with
  | zero => intro i; simp [subIfdLoop]
  | succ k ih =>
    intro i
    simp only [subIfdLoop]
    by_cases hoob : buf.length < (base + getULong buf (dataPos + 4 * i) bo) % U32
    · rw [if_pos hoob]; simp
    · rw [if_neg hoob]
      by_cases h2 : maxi ≤ i
      · rw [if_pos h2]; simp
      · rw [if_neg h2]
        have hi : i < maxi := Nat.lt_of_not_le h2
        have := ih (i + 1)
        simp only [List.length_cons]
        omega

/-- Each child the sub-IFD loop creates carries group `newGroup + index`
and a start offset that was validated against the buffer bound. -/
theorem subIfdLoop_children (buf : List Nat) (bo : ByteOrder)
    (base newGroup maxi dataPos : Nat) :
    ∀ k i j, j < (subIfdLoop buf bo base newGroup maxi dataPos i k).1.length →
      (subIfdLoop buf bo base newGroup maxi dataPos i k).1.getD j (0, 0) =
        (newGroup + (i + j), (base + getULong buf (dataPos + 4 * (i + j)) bo) % U32) ∧
      (base + getULong buf (dataPos + 4 * (i + j)) bo) % U32 ≤ buf.length := by
  intro k
  induction k with
  | zero => intro i j h; simp [subIfdLoop] at h
  | succ k ih =>
    intro i j h
    simp only [subIfdLoop] at h ⊢
    by_cases hoob : buf.length < (base + getULong buf (dataPos + 4 * i) bo) % U32
    · rw [if_pos hoob] at h
      simp at h
    · rw [if_neg hoob] at h ⊢
      by_cases h2 : maxi ≤ i
      · rw [if_pos h2] at h
        simp at h
      · rw [if_neg h2] at h ⊢
        cases j with
        | zero =>
          exact ⟨by rw [List.getD_cons_zero]; norm_num, by simpa using Nat.le_of_not_lt hoob⟩
        | succ j =>
          rw [List.getD_cons_succ]
          simp only [List.length_cons, Nat.succ_lt_succ_iff] at h
          have := ih (i + 1) j h
          have e1 : i + (j + 1) = i + 1 + j := by omega
          rw [e1]
          exact this

/-- When there are more slots than the cap and the first `maxi + 1`
offsets are in bounds, the loop creates exactly `maxi - i` children and
warns about the skipped remainder. -/
theorem subIfdLoop_cap_reached (buf : List Nat) (bo : ByteOrder)
    (base newGroup maxi dataPos : Nat) :
    ∀ k i, i ≤ maxi → maxi + 1 ≤ i + k →
      (∀ j, i ≤ j → j ≤ maxi → (base + getULong buf (dataPos + 4 * j) bo) % U32 ≤ buf.length) →
      (subIfdLoop buf bo base newGroup maxi dataPos i k).1.length = maxi - i ∧
      LogEvent.subIfdSkipExtra maxi ∈ (subIfdLoop buf bo base newGroup maxi dataPos i k).2 := by
  intro k
  induction k with
  | zero =>
    intro i hile hk _
    omega
  | succ k ih =>
    intro i hile hk hin
    simp only [subIfdLoop]
    split
    · next hoob => exact absurd (hin i le_rfl hile) (by simpa using hoob)
    · split
      · next h2 =>
        have : i = maxi := Nat.le_antisymm hile h2
        subst this
        simp
      · next _ h2 =>
        have hi : i < maxi := Nat.lt_of_not_le h2
        have := ih (i + 1) hi (by omega) (fun j hj1 hj2 => hin j (by omega) hj2)
        refine ⟨?_, this.2⟩
        simp only [List.length_cons, this.1]
        omega

/-- C5: `visitSubIfd` creates at most 9 child directories (at most 1 when
the entry's group is IFD1); the i-th created child has group
`newGroup + i` and a start offset validated against the buffer bound
before the child is created; and when a long/IFD-typed entry declares
more offsets than the cap, with the first cap+1 offsets in bounds,
exactly the capped number of sub-IFDs is traversed and a warning about
the remainder is logged. -/
theorem visitSubIfd_capped (buf : List Nat) (bo : ByteOrder) (base group newGroup : Nat)
    (e : EntryData) :
    ((visitSubIfd buf bo base group newGroup e).1.length ≤ (if group = ifd1Id then 1 else 9)) ∧
    (∀ j, j < (visitSubIfd buf bo base group newGroup e).1.length →
      (visitSubIfd buf bo base group newGroup e).1.getD j (0, 0) =
        (newGroup + j, (base + getULong buf (e.dataPos + 4 * j) bo) % U32) ∧
      (base + getULong buf (e.dataPos + 4 * j) bo) % U32 ≤ buf.length) ∧
    ((e.tiffType = 4 ∨ e.tiffType = 9 ∨ e.tiffType = 13) →
      e.count > (if group = ifd1Id then 1 else 9) →
      (∀ j, j ≤ (if group = ifd1Id then 1 else 9) →
        (base + getULong buf (e.dataPos + 4 * j) bo) % U32 ≤ buf.length) →
      (visitSubIfd buf bo base group newGroup e).1.length = (if group = ifd1Id then 1 else 9) ∧
      LogEvent.subIfdSkipExtra (if group = ifd1Id then 1 else 9) ∈
        (visitSubIfd buf bo base group newGroup e).2) := by
  refine ⟨?_, ?_, ?_⟩
  · unfold visitSubIfd
    by_cases hc : (e.tiffType = 4 ∨ e.tiffType = 9 ∨ e.tiffType = 13) ∧ e.count ≥ 1
    · rw [if_pos hc]
      simpa using subIfdLoop_length_le buf bo base newGroup _ e.dataPos e.count 0
    · rw [if_neg hc]; simp
  · intro j hj
    unfold visitSubIfd at hj ⊢
    by_cases hc : (e.tiffType = 4 ∨ e.tiffType = 9 ∨ e.tiffType = 13) ∧ e.count ≥ 1
    · rw [if_pos hc] at hj ⊢
      have := subIfdLoop_children buf bo base newGroup
        (if group = ifd1Id then 1 else 9) e.dataPos e.count 0 j hj
      simpa using this
    · rw [if_neg hc] at hj
      simp at hj
  · intro hty hcnt hin
    have hc1 : e.count ≥ 1 := by
      by_cases hg : group = ifd1Id
      · rw [if_pos hg] at hcnt; omega
      · rw [if_neg hg] at hcnt; omega
    unfold visitSubIfd
    rw [if_pos ⟨hty, hc1⟩]
    have hk : (if group = ifd1Id then 1 else 9) + 1 ≤ 0 + e.count := by
      by_cases hg : group = ifd1Id
      · rw [if_pos hg] at hcnt ⊢; omega
      · rw [if_neg hg] at hcnt ⊢; omega
    have := subIfdLoop_cap_reached buf bo base newGroup
      (if group = ifd1Id then 1 else 9) e.dataPos e.count 0 (Nat.zero_le _)
      hk (fun j _ hj2 => hin j hj2)
    simpa using this

/-- C5 witness: an unsigned-long entry of group 1 (not IFD1) declaring 50
sub-IFD offsets, all zero and in bounds for a 40-byte buffer: exactly 9
children are created and the skip warning is logged. -/
theorem visitSubIfd_capped_witness :
    (visitSubIfd (List.replicate 40 0) .littleEndian 0 1 10
      ⟨4, 4, 50, 0, 0, 200, []⟩).1.length = 9 ∧
    LogEvent.subIfdSkipExtra 9 ∈
      (visitSubIfd (List.replicate 40 0) .littleEndian 0 1 10 ⟨4, 4, 50, 0, 0, 200, []⟩).2 := by
  have h := (visitSubIfd_capped (List.replicate 40 0) .littleEndian 0 1 10
    ⟨4, 4, 50, 0, 0, 200, []⟩).2.2 (Or.inl rfl) (by decide) (by decide)
  simpa using h

/-- C1: an entry whose value does not fit inline (typeSize * count > 4)
and whose absolute range [base+offset, base+offset+size) falls outside
the buffer is truncated to size 0 with a warning logged and the read
returns normally (decode continues); the single exception is tag 0x2001
in group Sony1, for which a zero-filled placeholder buffer of the
declared size becomes the value instead. -/
theorem readTiffEntry_oob_truncates (tsz : Nat → Nat) (buf : List Nat) (bo : ByteOrder)
    (base tag group s : Nat)
    (h1 : ¬ s + 12 > buf.length)
    (h2 : ¬ getULong buf (s + 4) bo ≥ 268435456)
    (h3 : ¬ getULong buf (s + 4) bo >
      (U32 - 1) / effTypeSize tsz (getUShort buf (s + 2) bo))
    (h4 : effTypeSize tsz (getUShort buf (s + 2) bo) * getULong buf (s + 4) bo > 4)
    (h5 : (base + getULong buf (s + 8) bo) % U32 ≥ buf.length ∨
      (base + getULong buf (s + 8) bo) % U32 = 0) :
    ∃ e logs, readTiffEntry tsz buf bo base tag group s = .ok (some e, logs) ∧
      e.size = 0 ∧
      (tag = 8193 ∧ groupName group = "Sony1" →
        e.valueBytes =
          List.replicate (effTypeSize tsz (getUShort buf (s + 2) bo) * getULong buf (s + 4) bo) 0) ∧
      (¬ (tag = 8193 ∧ groupName group = "Sony1") →
        e.valueBytes = [] ∧
          LogEvent.offsetOutOfBounds (getULong buf (s + 8) bo) ∈ logs) := by
  unfold readTiffEntry
  rw [if_neg h1, if_neg h2, if_neg h3, if_pos ⟨h4, h5⟩]
  by_cases hs : tag = 8193 ∧ groupName group = "Sony1"
  · rw [if_pos hs]
    exact ⟨_, _, rfl, rfl, fun _ => rfl, fun hn => absurd hs hn⟩
  · rw [if_neg hs]
    exact ⟨_, _, rfl, rfl, fun hp => absurd hp hs,
      fun _ => ⟨rfl, List.mem_append_right _ (List.mem_singleton.mpr rfl)⟩⟩

/-- C1 witness: a concrete 12-byte little-endian entry of type LONG with
count 2 (declared size 8 > 4) and offset 100, out of bounds for the
12-byte buffer; the entry is truncated to size 0 with a warning. -/
theorem readTiffEntry_oob_truncates_witness :
    ∃ e logs, readTiffEntry tiffTypeSize [0, 0, 4, 0, 2, 0, 0, 0, 100, 0, 0, 0]
        .littleEndian 0 0 0 0 = .ok (some e, logs) ∧
      e.size = 0 ∧
      (0 = 8193 ∧ groupName 0 = "Sony1" →
        e.valueBytes =
          List.replicate (effTypeSize tiffTypeSize
            (getUShort [0, 0, 4, 0, 2, 0, 0, 0, 100, 0, 0, 0] 2 .littleEndian) *
            getULong [0, 0, 4, 0, 2, 0, 0, 0, 100, 0, 0, 0] 4 .littleEndian) 0) ∧
      (¬ (0 = 8193 ∧ groupName 0 = "Sony1") →
        e.valueBytes = [] ∧
          LogEvent.offsetOutOfBounds
            (getULong [0, 0, 4, 0, 2, 0, 0, 0, 100, 0, 0, 0] 8 .littleEndian) ∈ logs) :=
  readTiffEntry_oob_truncates tiffTypeSize [0, 0, 4, 0, 2, 0, 0, 0, 100, 0, 0, 0]
    .littleEndian 0 0 0 0 (by decide) (by decide) (by decide) (by decide) (by decide)

/-- C2: if the product typeSize * count computed by `readTiffEntry` would
exceed the 32-bit unsigned range (the code's guard
`count > std::numeric_limits<uint32_t>::max() / typeSize`), the reader
throws `kerArithmeticOverflow`, aborting the current decode call rather
than wrapping the product. -/
theorem readTiffEntry_overflow_raises (tsz : Nat → Nat) (buf : List Nat) (bo : ByteOrder)
    (base tag group s : Nat)
    (h1 : ¬ s + 12 > buf.length)
    (h2 : ¬ getULong buf (s + 4) bo ≥ 268435456)
    (h3 : getULong buf (s + 4) bo >
      (U32 - 1) / effTypeSize tsz (getUShort buf (s + 2) bo)) :
    readTiffEntry tsz buf bo base tag group s = .error .kerArithmeticOverflow := by
  unfold readTiffEntry
  rw [if_neg h1, if_neg h2, if_pos h3]

/-- C2 witness: with an (external) type of per-component size 2^31 and a
count of 2, the 32-bit product would overflow and the reader throws. -/
theorem readTiffEntry_overflow_raises_witness :
    readTiffEntry (fun _ => 2147483648) [0, 0, 4, 0, 2, 0, 0, 0, 0, 0, 0, 0]
      .littleEndian 0 0 0 0 = .error .kerArithmeticOverflow :=
  readTiffEntry_overflow_raises (fun _ => 2147483648) [0, 0, 4, 0, 2, 0, 0, 0, 0, 0, 0, 0]
    .littleEndian 0 0 0 0 (by decide) (by decide) (by decide)

/-- C10: an entry whose 4-byte count field is at least 0x10000000 makes
`readTiffEntry` return right after logging, with no value attached, and
`decodeTiffEntry` emits nothing for an entry without a value, so such an
entry never reaches the output maps. -/
theorem readTiffEntry_huge_count_skipped {α : Type} (tsz : Nat → Nat) (buf : List Nat)
    (bo : ByteOrder) (base tag group s : Nat) (registry : List (TiffMappingInfo α))
    (make : List Char) (emit : α → List (String × String))
    (h1 : ¬ s + 12 > buf.length)
    (h2 : getULong buf (s + 4) bo ≥ 268435456) :
    (∃ logs, readTiffEntry tsz buf bo base tag group s = .ok (none, logs) ∧
      LogEvent.invalidSize (getULong buf (s + 4) bo) ∈ logs) ∧
    decodeTiffEntry registry make tag group none emit = [] := by
  constructor
  · unfold readTiffEntry
    rw [if_neg h1, if_pos h2]
    exact ⟨_, rfl, List.mem_append_right _ (List.mem_singleton.mpr rfl)⟩
  · rfl

/-- C10 witness: a concrete entry with count field 0x10000000. -/
theorem readTiffEntry_huge_count_skipped_witness :
    (∃ logs, readTiffEntry tiffTypeSize [0, 0, 4, 0, 0, 0, 0, 16, 0, 0, 0, 0]
        .littleEndian 0 0 0 0 = .ok (none, logs) ∧
      LogEvent.invalidSize
        (getULong [0, 0, 4, 0, 0, 0, 0, 16, 0, 0, 0, 0] 4 .littleEndian) ∈ logs) ∧
    decodeTiffEntry ([] : List (TiffMappingInfo Nat)) "ACME".toList 0 0 none (fun _ => []) = [] :=
  readTiffEntry_huge_count_skipped tiffTypeSize [0, 0, 4, 0, 0, 0, 0, 16, 0, 0, 0, 0]
    .littleEndian 0 0 0 0 [] "ACME".toList (fun _ => []) (by decide) (by decide)

/-- The entry loop never logs the `dirTooLarge` rejection: that log is
emitted only by the `n > 256` sanity check. -/
theorem readDirEntries_no_dirTooLarge (create : Nat → Nat → Bool) (buf : List Nat)
    (bo : ByteOrder) (group : Nat) :
    ∀ k p i m, LogEvent.dirTooLarge m ∉ (readDirEntries create buf bo group p i k).2.1 := by
  intro k
  induction k with
  | zero => intro p i m h; simp [readDirEntries] at h
  | succ k ih =>
    intro p i m h
    simp only [readDirEntries] at h
    by_cases hb : p + 12 > buf.length
    · rw [if_pos hb] at h
      simp at h
    · rw [if_neg hb] at h
      by_cases hc : create (getUShort buf p bo) group = true
      · rw [if_pos hc] at h
        exact ih _ _ _ h
      · rw [if_neg hc] at h
        rcases List.mem_cons.mp h with h' | h'
        · exact LogEvent.noConfusion h'
        · exact ih _ _ _ h'

/-- C3: a directory whose 2-byte entry count exceeds 256 is left empty
(no child added, no next pointer) with the rejection logged, and
`visitDirectory` returns normally so sibling and parent decoding
continues; a count of at most 256 never triggers that rejection. -/
theorem visitDirectory_entry_count_cap (create : Nat → Nat → Bool) (createNext : Nat → Bool)
    (buf : List Nat) (bo : ByteOrder) (base group start : Nat) (hasNext : Bool)
    (dirList : List (Nat × Nat))
    (hvis : dirList.find? (fun q => q.1 = start) = none)
    (hb : ¬ start + 2 > buf.length) :
    (getUShort buf start bo > 256 →
      visitDirectory create createNext buf bo base group start hasNext dirList =
        ⟨dirList ++ [(start, group)], [], none, [.dirTooLarge (getUShort buf start bo)]⟩) ∧
    (¬ getUShort buf start bo > 256 →
      ∀ m, LogEvent.dirTooLarge m ∉
        (visitDirectory create createNext buf bo base group start hasNext dirList).logs) := by
  constructor
  · intro hn
    simp only [visitDirectory, hvis]
    rw [if_neg hb, if_pos hn]
  · intro hn m hmem
    simp only [visitDirectory, hvis] at hmem
    rw [if_neg hb, if_neg hn] at hmem
    have hre := readDirEntries_no_dirTooLarge create buf bo group
      (getUShort buf start bo) (start + 2) 0 m
    split at hmem
    · exact hre hmem
    · split at hmem
      · split at hmem
        · rcases List.mem_append.mp hmem with h | h
          · exact hre h
          · exact LogEvent.noConfusion (List.mem_singleton.mp h)
        · split at hmem
          · split at hmem
            · split at hmem
              · rcases List.mem_append.mp hmem with h | h
                · exact hre h
                · exact LogEvent.noConfusion (List.mem_singleton.mp h)
              · exact hre hmem
            · rcases List.mem_append.mp hmem with h | h
              · exact hre h
              · exact LogEvent.noConfusion (List.mem_singleton.mp h)
          · exact hre hmem
      · exact hre hmem

/-- C3 witness: a 2-byte buffer declaring 300 entries is rejected with
the directory left empty; the same buffer with count 256 is not caught
by this check. -/
theorem visitDirectory_entry_count_cap_witness :
    ((44 : Nat) + 256 > 256 →
      visitDirectory (fun _ _ => true) (fun _ => true) [44, 1] .littleEndian 0 1 0 false [] =
        ⟨[(0, 1)], [], none, [.dirTooLarge 300]⟩) ∧
    (44 + 256 > 256) := by
  refine ⟨fun _ => ?_, by decide⟩
  have h := (visitDirectory_entry_count_cap (fun _ _ => true) (fun _ => true) [44, 1]
    .littleEndian 0 1 0 false [] rfl (by decide)).1 (by decide)
  exact h

/-- The visited set after one directory visit: unchanged on refusal,
extended by exactly the new (start, group) pair otherwise. -/
theorem visitDirectory_dirList (create : Nat → Nat → Bool) (createNext : Nat → Bool)
    (buf : List Nat) (bo : ByteOrder) (base g st : Nat) (hn : Bool)
    (dl : List (Nat × Nat)) :
    (visitDirectory create createNext buf bo base g st hn dl).dirList =
      if (dl.find? (fun q => q.1 = st)).isSome then dl else dl ++ [(st, g)] := by
  unfold visitDirectory
  cases hf : dl.find? (fun q => q.1 = st) with
  | some prev => simp
  | none =>
    simp only [Option.isSome_none, Bool.false_eq_true, if_false]
    split
    · rfl
    · split
      · rfl
      · split
        · rfl
        · split
          · split
            · rfl
            · split
              · split
                · split
                  · rfl
                  · rfl
                · rfl
              · rfl
          · rfl

/-- Along any sequence of visit requests, the starts of the visits that
pass the circular-reference guard are pairwise distinct and disjoint
from the initial visited set. -/
theorem prodStarts_nodup (create : Nat → Nat → Bool) (createNext : Nat → Bool)
    (buf : List Nat) (bo : ByteOrder) (base : Nat) :
    ∀ reqs dl, (prodStarts create createNext buf bo base reqs dl).Nodup ∧
      ∀ s ∈ prodStarts create createNext buf bo base reqs dl, s ∉ dl.map Prod.fst := by
  intro reqs
  induction reqs with
  | nil =>
    intro dl
    exact ⟨List.nodup_nil, by intro s h; cases h⟩
  | cons r rest ih =>
    intro dl
    obtain ⟨g, st, hn⟩ := r
    simp only [prodStarts]
    by_cases hv : (dl.find? (fun q => q.1 = st)).isSome
    · rw [if_pos hv]
      rw [visitDirectory_dirList, if_pos hv]
      exact ih dl
    · rw [if_neg hv]
      rw [visitDirectory_dirList, if_neg hv]
      have hnone : dl.find? (fun q => q.1 = st) = none :=
        Option.not_isSome_iff_eq_none.mp hv
      have hst : st ∉ dl.map Prod.fst := by
        intro hmem
        obtain ⟨q, hq, hq2⟩ := List.mem_map.mp hmem
        have := List.find?_eq_none.mp hnone q hq
        simp [hq2] at this
      refine ⟨List.nodup_cons.mpr ⟨?_, (ih _).1⟩, ?_⟩
      · intro hmem
        have := (ih (dl ++ [(st, g)])).2 st hmem
        simp at this
      · intro s hs
        rcases List.mem_cons.mp hs with rfl | hs'
        · exact hst
        · intro hmem
          refine (ih (dl ++ [(st, g)])).2 s hs' ?_
          simp only [List.map_append, List.mem_append]
          exact Or.inl hmem

/-- Every productive start comes from the request sequence. -/
theorem prodStarts_subset (create : Nat → Nat → Bool) (createNext : Nat → Bool)
    (buf : List Nat) (bo : ByteOrder) (base : Nat) :
    ∀ reqs dl s, s ∈ prodStarts create createNext buf bo base reqs dl →
      s ∈ reqs.map (fun r => r.2.1) := by
  intro reqs
  induction reqs with
  | nil => intro dl s h; cases h
  | cons r rest ih =>
    intro dl s h
    obtain ⟨g, st, hn⟩ := r
    simp only [prodStarts] at h
    by_cases hv : (dl.find? (fun q => q.1 = st)).isSome
    · rw [if_pos hv] at h
      exact List.mem_cons_of_mem _ (ih _ s h)
    · rw [if_neg hv] at h
      rcases List.mem_cons.mp h with rfl | h'
      · exact List.mem_cons_self _ _
      · exact List.mem_cons_of_mem _ (ih _ s h')

/-- The number of productive visits never exceeds the number of visit
requests. -/
theorem prodStarts_length (create : Nat → Nat → Bool) (createNext : Nat → Bool)
    (buf : List Nat) (bo : ByteOrder) (base : Nat) :
    ∀ reqs dl, (prodStarts create createNext buf bo base reqs dl).length ≤ reqs.length := by
  intro reqs
  induction reqs with
  | nil => intro dl; simp [prodStarts]
  | cons r rest ih =>
    intro dl
    obtain ⟨g, st, hn⟩ := r
    simp only [prodStarts]
    by_cases hv : (dl.find? (fun q => q.1 = st)).isSome
    · rw [if_pos hv]
      exact Nat.le_succ_of_le (ih _)
    · rw [if_neg hv]
      simpa using Nat.succ_le_succ (ih _)

/-- C4: the reader's visited set (`dirList_`) makes `visitDirectory`
refuse a start offset already visited under any group, returning before
it reads the entry count (the result does not depend on the buffer) and
adding no children; consequently, along any sequence of directory
visits, the set of productively visited starts is duplicate-free (no
directory's tags are emitted twice) and its size is bounded by the
number of visits, so a pointer cycle terminates after a bounded number
of productive visits. -/
theorem reader_circular_reference_guard (create : Nat → Nat → Bool) (createNext : Nat → Bool)
    (buf : List Nat) (bo : ByteOrder) (base : Nat) :
    (∀ group start hasNext dirList prev,
      dirList.find? (fun q => q.1 = start) = some prev →
      visitDirectory create createNext buf bo base group start hasNext dirList =
        ⟨dirList, [], none, [.circularRef group prev.2]⟩) ∧
    (∀ reqs dirList, (prodStarts create createNext buf bo base reqs dirList).Nodup) ∧
    (∀ reqs dirList s, s ∈ prodStarts create createNext buf bo base reqs dirList →
      s ∈ reqs.map (fun r => r.2.1)) ∧
    (∀ reqs dirList,
      (prodStarts create createNext buf bo base reqs dirList).length ≤ reqs.length) := by
  refine ⟨?_, fun reqs dl => (prodStarts_nodup create createNext buf bo base reqs dl).1,
    prodStarts_subset create createNext buf bo base,
    prodStarts_length create createNext buf bo base⟩
  intro group start hasNext dirList prev hf
  simp only [visitDirectory, hf]

/-- C4 witness: a second visit to start offset 5 (first visited under
group 7) is refused with the visited set unchanged and no children, and
a request list that revisits offset 0 yields exactly one productive
visit. -/
theorem reader_circular_reference_guard_witness :
    visitDirectory (fun _ _ => true) (fun _ => true) [] .littleEndian 0 3 5 false [(5, 7)] =
      ⟨[(5, 7)], [], none, [.circularRef 3 7]⟩ :=
  (reader_circular_reference_guard (fun _ _ => true) (fun _ => true) []
    .littleEndian 0).1 3 5 false [(5, 7)] (5, 7) rfl

/-- C6: when a Makernote's concrete header fails to validate, the reader
clears the known-Makernote capability, so the inner IFD is not traversed
(no inner directory or inner entry is visited), the slot's concrete
Makernote sub-tree is discarded (`mn_` reset to null, the slot remaining
an opaque binary entry), the failure is logged, and the traverse flag
stays set so the decode of the rest of the tree proceeds. -/
theorem makernote_header_failure (kn : Bool) (tg mg : Nat) (ents : List Nat) :
    (acceptMnEntry ⟨true, kn⟩ ⟨tg, some ⟨false, mg, ents⟩⟩).2.1.mn = none ∧
    LogEvent.mnHeaderFail mg ∈
      (acceptMnEntry ⟨true, kn⟩ ⟨tg, some ⟨false, mg, ents⟩⟩).2.2.2 ∧
    (∀ t, VisitNode.innerEntry t ∉
      (acceptMnEntry ⟨true, kn⟩ ⟨tg, some ⟨false, mg, ents⟩⟩).2.2.1) ∧
    (∀ g, VisitNode.innerIfd g ∉
      (acceptMnEntry ⟨true, kn⟩ ⟨tg, some ⟨false, mg, ents⟩⟩).2.2.1) ∧
    (acceptMnEntry ⟨true, kn⟩ ⟨tg, some ⟨false, mg, ents⟩⟩).1.traverse = true := by
  refine ⟨rfl, ?_, ?_, ?_, rfl⟩
  · simp [acceptMnEntry, acceptIfdMakernote]
  · intro t
    simp [acceptMnEntry, acceptIfdMakernote]
  · intro g
    simp [acceptMnEntry, acceptIfdMakernote]

/-- C6 witness: a slot with a concrete Makernote whose header fails to
validate, entered with both go flags set. -/
theorem makernote_header_failure_witness :
    (acceptMnEntry ⟨true, true⟩ ⟨42, some ⟨false, 9, [1, 2]⟩⟩).2.1.mn = none ∧
    LogEvent.mnHeaderFail 9 ∈ (acceptMnEntry ⟨true, true⟩ ⟨42, some ⟨false, 9, [1, 2]⟩⟩).2.2.2 ∧
    (∀ t, VisitNode.innerEntry t ∉
      (acceptMnEntry ⟨true, true⟩ ⟨42, some ⟨false, 9, [1, 2]⟩⟩).2.2.1) ∧
    (∀ g, VisitNode.innerIfd g ∉
      (acceptMnEntry ⟨true, true⟩ ⟨42, some ⟨false, 9, [1, 2]⟩⟩).2.2.1) ∧
    (acceptMnEntry ⟨true, true⟩ ⟨42, some ⟨false, 9, [1, 2]⟩⟩).1.traverse = true :=
  makernote_header_failure true 42 9 [1, 2]

/-- C7 counterexample: the matching rule of
`TiffMappingInfo::operator==` has a wildcard clause the claim omits: an
entry whose make string is `"*"` matches the camera make `"Canon"`
although `"*"` is not a prefix of `"Canon"`, so "matches iff the make
string equals a prefix of the reported make" fails. -/
theorem tmiMatches_wildcard_counterexample :
    tmiMatches (⟨['*'], TagAll, 7, none⟩ : TiffMappingInfo Nat) ⟨"Canon".toList, 42, 7⟩ = true ∧
    (['*'] : List Char).isPrefixOf "Canon".toList = false := by
  exact ⟨by decide, by decide⟩

/-- C7 (amended): a registry entry matches a key iff its make string is
the literal wildcard `"*"` or, compared over its own length, equals a
prefix of the camera's reported make (case-sensitive), its extended tag
is `Tag::all` or equals the key's tag, and the groups are equal; hence
the entry `"OLYMPUS"` matches the make `"OLYMPUS OPTICAL CO.,LTD"`; and
when the registry lookup finds no decode function the tag is skipped
(nothing is emitted to the output maps). -/
theorem decoder_registry_make_matching {α : Type} :
    (∀ (info : TiffMappingInfo α) (key : MappingKey),
      tmiMatches info key = true ↔
        ((info.make = ['*'] ∨ info.make.isPrefixOf key.m = true) ∧
          (info.extendedTag = TagAll ∨ key.e = info.extendedTag) ∧
          key.g = info.group)) ∧
    ("OLYMPUS".toList).isPrefixOf ("OLYMPUS OPTICAL CO.,LTD".toList) = true ∧
    (∀ (registry : List (TiffMappingInfo α)) (make : List Char) (tag group : Nat)
        (v : Option EntryData) (emit : α → List (String × String)),
      findDecoderFct registry make tag group = none →
      decodeTiffEntry registry make tag group v emit = []) := by
  refine ⟨?_, by decide, ?_⟩
  · intro info key
    simp only [tmiMatches, Bool.and_eq_true, Bool.or_eq_true, decide_eq_true_eq,
      List.isPrefixOf_iff_prefix]
    exact and_assoc
  · intro registry make tag group v emit hf
    cases v with
    | none => rfl
    | some e => simp [decodeTiffEntry, hf]

/-- C7 witness: the Olympus prefix match accepted by the amended rule,
and a concrete no-match entry that is skipped. -/
theorem decoder_registry_make_matching_witness :
    tmiMatches (⟨"OLYMPUS".toList, TagAll, 5, some 0⟩ : TiffMappingInfo Nat)
        ⟨"OLYMPUS OPTICAL CO.,LTD".toList, 42, 5⟩ = true ∧
    decodeTiffEntry ([] : List (TiffMappingInfo Nat)) "ACME".toList 1 1
        (some ⟨1, 1, 1, 0, 0, 0, []⟩) (fun _ => [("k", "v")]) = [] := by
  constructor
  · exact ((decoder_registry_make_matching (α := Nat)).1 _ _).mpr
      ⟨Or.inr (by decide), Or.inl rfl, rfl⟩
  · exact (decoder_registry_make_matching (α := Nat)).2.2 [] _ 1 1 _ _ rfl

/-- C8: for a binary array configured with `hasFillers_ = true` and
`concat_ = true`, a default element of one unsigned byte (tag step 1)
and declared LONG elements at byte offsets 0, 4 and 10 of a 20-byte
blob (covering [0,4), [4,8) and [10,14)), the post-process read produces
exactly the three declared elements plus concatenated filler elements
covering the byte ranges [8,10) and [14,20). -/
theorem binary_array_gap_filling :
    binaryArrayElements tiffTypeSize
      ⟨1, .invalidByteOrder, 1, none, false, true, true, ⟨0, 1, 1⟩⟩
      (some [⟨0, 4, 1⟩, ⟨4, 4, 1⟩, ⟨10, 4, 1⟩]) 0 (List.replicate 20 0) =
      [(0, 0, 4), (4, 4, 4), (8, 8, 2), (10, 10, 4), (14, 14, 6)] := by
  decide

end Wexiv
